import Mathlib

/-!
Verification of the TikTok-Profile-Song-Scraper core against its
natural-language specification.

The development shallowly embeds the two subsystems the spec covers:

* the classification pipeline (`src/processor.py`, duplicated at
  `src/backend/app/services/processor.py`): `process_songs`,
  `_process_batch`'s response-cleaning step, `format_song_list`;
* the scrape loop (`src/scraper.py`, duplicated at
  `src/backend/app/services/scraper.py`): the title-accumulation loop of
  `scrape_songs`, the retrying page loader `_try_load_page`, and the
  carousel advance `_click_next_and_wait_for_change`.

Python dict records are embedded as association lists of JSON values so
that the present-with-null versus absent distinction of `dict.get` is
preserved.  External collaborators (the generative backend, the browser
driver) are embedded as oracles: functions from call index to outcome.
-/

/-- A JSON value as it occurs in the classification records:
`null`, a boolean, or a string. -/
inductive JValue where
  | null : JValue
  | bool : Bool → JValue
  | str : String → JValue
deriving DecidableEq, Repr

/-- A classification record: a Python dict embedded as an association
list from keys to JSON values (first binding of a key wins, as in a
Python dict built left to right with distinct keys). -/
abbrev Rec : Type := List (String × JValue)

/-- Python `r.get(k)` without a default: `some v` when key `k` is
present with value `v` (possibly `null`), `none` when the key is absent. -/
def Rec.get (r : Rec) (k : String) : Option JValue :=
  (List.find? (fun p => p.1 = k) r).map Prod.snd

/-- Python truthiness of `r.get(k)`: absent and `None` and `False` and
`""` are falsy. -/
def truthy (v : Option JValue) : Bool :=
  match v with
  | none => false
  | some JValue.null => false
  | some (JValue.bool b) => b
  | some (JValue.str s) => !(s = "")

/-- The placeholder record appended by `process_songs` for each title of
a batch whose request raised an exception with message `msg`
(src/processor.py lines 60-66). -/
def placeholderRecord (title msg : String) : Rec :=
  [("original_title", JValue.str title),
   ("is_real_song", JValue.null),
   ("error", JValue.str msg)]

/-- The per-title record returned by `_process_batch` when the response
text fails JSON parsing (src/processor.py line 135). -/
def parseErrorRecord (title : String) : Rec :=
  [("original_title", JValue.str title),
   ("is_real_song", JValue.null),
   ("parse_error", JValue.bool true)]

/-- Outcome of one batch call against the generative backend, as seen by
`process_songs`: the response parsed to a JSON record array, or the
JSONDecodeError branch inside `_process_batch`, or an exception raised by
the request itself (network/quota), carrying `str(e)`. -/
inductive BatchOutcome where
  | ok : List Rec → BatchOutcome
  | parseFail : BatchOutcome
  | requestError : String → BatchOutcome
deriving DecidableEq

/-- The records contributed to `all_results` by one batch, given the
batch's outcome: a parsed array is extended as-is; the two failure
branches synthesize one record per title of the batch. -/
def batchResult (o : BatchOutcome) (batch : List String) : List Rec :=
  match o with
  | BatchOutcome.ok records => records
  | BatchOutcome.parseFail => batch.map parseErrorRecord
  | BatchOutcome.requestError msg => batch.map (fun t => placeholderRecord t msg)

/-- The batch slices `raw_titles[i:i+batch_size]` produced by the loop
`for i in range(0, len(raw_titles), batch_size)` (src/processor.py
lines 42-43), in loop order. -/
def chunks (bs : Nat) (l : List String) : List (List String) :=
  if h : bs = 0 ∨ l = [] then []
  else l.take bs :: chunks bs (l.drop bs)
termination_by l.length
decreasing_by
  push_neg at h
  obtain ⟨h1, h2⟩ := h
  have hl : 0 < l.length := List.length_pos.mpr h2
  have := List.length_drop bs l
  omega

/-- The per-batch record lists produced during one `process_songs` run:
the batches paired with their 0-based index, each mapped through its
outcome. -/
def batchResults (oracle : Nat → BatchOutcome) (batch_size : Nat)
    (raw_titles : List String) : List (List Rec) :=
  ((chunks batch_size raw_titles).enum).map
    (fun p => batchResult (oracle p.1) p.2)

/-- Embedding of `process_songs` (src/processor.py lines 29-70) with the backend
embedded as an oracle from batch index (0-based) to outcome: the
concatenation, in batch order, of each batch's contributed records. -/
def process_songs (oracle : Nat → BatchOutcome) (raw_titles : List String)
    (batch_size : Nat) : List Rec :=
  (batchResults oracle batch_size raw_titles).flatten

/-- The formatted entry built by `format_song_list` for a record whose
`is_real_song` is truthy (src/processor.py lines 165-178).  Note the
nested defaults of `r.get("song_name", r.get("original_title"))` and
`r.get("artist", "Unknown")`: the default applies only when the key is
absent, a present `null` value is kept. -/
def formatEntry (r : Rec) : Rec :=
  [("song",
     match Rec.get r "song_name" with
     | some v => v
     | none => (Rec.get r "original_title").getD JValue.null),
   ("artist", (Rec.get r "artist").getD (JValue.str "Unknown")),
   ("type",
     if truthy (Rec.get r "is_remix") then JValue.str "remix"
     else if truthy (Rec.get r "is_cover") then JValue.str "cover"
     else JValue.str "original"),
   ("confidence", (Rec.get r "confidence").getD (JValue.str "unknown")),
   ("tiktok_title", (Rec.get r "original_title").getD JValue.null)]

/-- The stub emitted for a non-real-song record when `include_originals`
is set (src/processor.py lines 181-186). -/
def originalStub (r : Rec) : Rec :=
  [("song", JValue.null),
   ("artist", JValue.null),
   ("type", JValue.str "user_original"),
   ("tiktok_title", (Rec.get r "original_title").getD JValue.null)]

/-- Embedding of `format_song_list` (src/processor.py lines 150-188): one formatted
entry per record with truthy `is_real_song`; non-real-song records are
dropped unless `include_originals` is set. -/
def format_song_list (results : List Rec) (include_originals : Bool) : List Rec :=
  results.flatMap (fun r =>
    if truthy (Rec.get r "is_real_song") then [formatEntry r]
    else if include_originals then [originalStub r]
    else [])

/-! ### String utilities mirroring the Python `str` operations used by
`_process_batch` and the scrape loop.  Python strings are embedded as
Lean strings; the operations are defined on the underlying character
lists so that they can be reasoned about by list induction. -/

/-- Python whitespace as recognized by `str.strip()` / `str.split()`:
space, tab, newline, carriage return, vertical tab, form feed. -/
def isWs (c : Char) : Bool :=
  c = ' ' || c = Char.ofNat 9 || c = Char.ofNat 10 || c = Char.ofNat 13 ||
  c = Char.ofNat 11 || c = Char.ofNat 12

/-- Python `s.strip()`: remove whitespace from both ends. -/
def pyStrip (s : String) : String :=
  String.mk ((((s.data.dropWhile isWs).reverse).dropWhile isWs).reverse)

/-- The backtick character. -/
def tick : Char := Char.ofNat 96

/-- Python `s.startswith("` ``` `")`. -/
def startsWithTicks (s : String) : Bool :=
  match s.data with
  | a :: b :: c :: _ => a = tick && b = tick && c = tick
  | _ => false

/-- Worker for `s.split("\n")`: accumulate the current piece (reversed)
and cut at every newline. -/
def splitNlAux : List Char → List Char → List (List Char)
  | [], acc => [acc.reverse]
  | c :: cs, acc =>
    if c = Char.ofNat 10 then acc.reverse :: splitNlAux cs []
    else splitNlAux cs (c :: acc)

/-- Python `s.split("\n")`. -/
def splitNl (s : String) : List String :=
  (splitNlAux s.data []).map String.mk

/-- Worker for `"\n".join(lines)` on character lists. -/
def joinNlC : List (List Char) → List Char
  | [] => []
  | [l] => l
  | l :: ls => l ++ Char.ofNat 10 :: joinNlC ls

/-- Python `"\n".join(lines)`. -/
def joinNl (ls : List String) : String :=
  String.mk (joinNlC (ls.map String.data))

/-- The fence-stripping step of `_process_batch` (src/processor.py
lines 126-129): if the stripped response text starts with three
backticks, split it into lines and keep `lines[1:-1]` (drop the first
and the last line), rejoining with newlines. -/
def stripFences (s : String) : String :=
  if startsWithTicks s then joinNl (((splitNl s).drop 1).dropLast)
  else s

/-- The response-cleaning pipeline of `_process_batch` before
`json.loads`: `response.text.strip()` followed by fence stripping
(src/processor.py lines 120-129). -/
def cleanResponse (raw : String) : String :=
  stripFences (pyStrip raw)

/-! ### Scrape loop (title accumulation) -/

/-- The per-video title filter of the scrape loop
(src/scraper.py lines 197-199): keep a title only when present and
non-empty after trimming, in trimmed form. -/
def cleanTitle (t : Option String) : Option String :=
  match t with
  | none => none
  | some s => if pyStrip s = "" then none else some (pyStrip s)

/-- One iteration of the title-accumulation loop of `scrape_songs`
(src/scraper.py lines 197-205) on the state
`(self.songs, song_titles)`: append the trimmed title to `self.songs`
and record it in the seen-set `song_titles` unless already seen. -/
def addTitle (st : List String × List String) (t : Option String) :
    List String × List String :=
  match cleanTitle t with
  | none => st
  | some s => if s ∈ st.2 then st else (st.1 ++ [s], s :: st.2)

/-- The `self.songs` list after one `scrape_songs` call that observed
the extraction outcomes `extracted` (one `Option String` per visited
video), starting from the instance state `songs0` accumulated by earlier
calls; the local seen-set `song_titles = set()` starts empty on every
call (src/scraper.py line 194). -/
def scrape_songs_titles (extracted : List (Option String))
    (songs0 : List String) : List String :=
  (extracted.foldl addTitle (songs0, [])).1

/-- The cleaned extraction sequence: trimmed non-empty titles in
observation order. -/
def cleanedTitles (extracted : List (Option String)) : List String :=
  extracted.filterMap cleanTitle

/-- Modelled from the spec: first-seen-order deduplication of a title
sequence, skipping titles already in `seen` ("no duplicate entries,
first-seen order preserved").  Worker carrying the seen set. -/
def specDedupGo (seen : List String) : List String → List String
  | [] => []
  | x :: xs =>
    if x ∈ seen then specDedupGo seen xs
    else x :: specDedupGo (x :: seen) xs

/-- Modelled from the spec: the Raw Title Set described in the spec —
the cleaned titles deduplicated keeping first occurrences. -/
def specFirstSeenDedup (l : List String) : List String :=
  specDedupGo [] l

/-! ### Page loader (`_try_load_page`, src/scraper.py lines 106-147) -/

/-- What one attempt of `_try_load_page` observes from the driver:
the `page.goto` call raised (transport-level error), or the video-grid
selector was observed within its timeout, or the grid was not observed
(`soft` records whether the page content showed the soft-block
marker — diagnostic only, both no-grid cases are retried identically). -/
inductive AttemptOutcome where
  | gotoError : AttemptOutcome
  | gridFound : AttemptOutcome
  | noGrid : Bool → AttemptOutcome
deriving DecidableEq

/-- The retry loop of `_try_load_page` from attempt number `attempt` up
to `max_retries`, with the driver embedded as an oracle from attempt
number to outcome.  Returns whether the load succeeded together with the
list of between-attempt sleeps performed, in seconds and in order:
`attempt * 5` after a grid-not-observed failure (line 141),
a constant `5` after a caught transport error (line 147). -/
def tryLoadGo (driver : Nat → AttemptOutcome) (max_retries attempt : Nat) :
    Bool × List Nat :=
  if max_retries < attempt then (false, [])
  else
    match driver attempt with
    | AttemptOutcome.gridFound => (true, [])
    | AttemptOutcome.noGrid _ =>
      if attempt < max_retries then
        let r := tryLoadGo driver max_retries (attempt + 1)
        (r.1, attempt * 5 :: r.2)
      else (false, [])
    | AttemptOutcome.gotoError =>
      if attempt < max_retries then
        let r := tryLoadGo driver max_retries (attempt + 1)
        (r.1, 5 :: r.2)
      else (false, [])
termination_by max_retries + 1 - attempt

/-- Entry point `_try_load_page(page, max_retries)`: attempts start at 1. -/
def try_load_page (driver : Nat → AttemptOutcome) (max_retries : Nat) :
    Bool × List Nat :=
  tryLoadGo driver max_retries 1

/-! ### Carousel navigator (`_click_next_and_wait_for_change`,
src/backend/app/services/scraper.py lines 152-190) -/

/-- Embedding of `_click_next_and_wait_for_change` with the page as oracles:
`visible i` is the visibility of the "next" control at the i-th of the
50 polls; `disabled` is whether the control carries the `disabled`
attribute; `titleAt j` is the result of the j-th `_get_music_title` call
after the click (j = 0..19 inside the change-waiting poll, j = 20 for
the final fallback read).  Returns the `(success, new_title)` pair
together with the number of clicks issued on the control. -/
def click_next_and_wait_for_change (visible : Nat → Bool) (disabled : Bool)
    (titleAt : Nat → Option String) (current : Option String) :
    (Bool × Option String) × Nat :=
  if (List.range 50).any (fun i => visible i) then
    if disabled then ((false, none), 0)
    else
      match (List.range 20).findSome? (fun j =>
        match titleAt j with
        | some t => if t ≠ "" ∧ some t ≠ current then some t else none
        | none => none) with
      | some t => ((true, some t), 1)
      | none => ((true, titleAt 20), 1)
  else ((false, none), 0)

/-! ## Lemmas about the batch partitioning -/

theorem chunks_nil (bs : Nat) : chunks bs [] = [] := by
  rw [chunks]
  simp

theorem chunks_cons (bs : Nat) (l : List String) (hbs : bs ≠ 0) (hl : l ≠ []) :
    chunks bs l = l.take bs :: chunks bs (l.drop bs) := by
  rw [chunks]
  rw [dif_neg]
  push_neg
  exact ⟨hbs, hl⟩

theorem chunks_flatten (bs : Nat) (hbs : 0 < bs) (l : List String) :
    (chunks bs l).flatten = l := by
  by_cases hl : l = []
  · subst hl
    rw [chunks_nil]
    rfl
  · rw [chunks_cons bs l (by omega) hl]
    simp only [List.flatten_cons]
    rw [chunks_flatten bs hbs (l.drop bs)]
    exact List.take_append_drop bs l
termination_by l.length
decreasing_by
  have hlen : 0 < l.length := List.length_pos.mpr hl
  have hd := List.length_drop bs l
  omega

theorem chunks_length (bs : Nat) (hbs : 0 < bs) (l : List String) :
    (chunks bs l).length = (l.length + bs - 1) / bs := by
  by_cases hl : l = []
  · subst hl
    rw [chunks_nil]
    simp only [List.length_nil, Nat.zero_add]
    rw [Nat.div_eq_of_lt (by omega)]
  · have hn : 0 < l.length := List.length_pos.mpr hl
    rw [chunks_cons bs l (by omega) hl]
    simp only [List.length_cons]
    rw [chunks_length bs hbs (l.drop bs)]
    rw [List.length_drop]
    have key : l.length + bs - 1 = (l.length - 1) + bs := by omega
    rw [key, Nat.add_div_right _ hbs]
    by_cases hc : l.length ≤ bs
    · have h1 : l.length - bs = 0 := by omega
      rw [h1]
      rw [Nat.div_eq_of_lt (by omega), Nat.div_eq_of_lt (by omega)]
    · have h2 : l.length - bs + bs - 1 = l.length - 1 := by omega
      rw [h2]
termination_by l.length
decreasing_by
  have hlen : 0 < l.length := List.length_pos.mpr hl
  have hd := List.length_drop bs l
  omega

theorem chunks_eq_nil_iff (bs : Nat) (l : List String) (hbs : 0 < bs) :
    chunks bs l = [] ↔ l = [] := by
  constructor
  · intro h
    by_contra hl
    rw [chunks_cons bs l (by omega) hl] at h
    exact List.cons_ne_nil _ _ h
  · intro h
    subst h
    exact chunks_nil bs

theorem chunks_mem_sizes (bs : Nat) (hbs : 0 < bs) (l : List String) :
    ∀ c ∈ chunks bs l, c ≠ [] ∧ c.length ≤ bs := by
  by_cases hl : l = []
  · subst hl
    rw [chunks_nil]
    intro c hc
    exact absurd hc (List.not_mem_nil c)
  · rw [chunks_cons bs l (by omega) hl]
    intro c hc
    rcases List.mem_cons.mp hc with h | h
    · subst h
      constructor
      · have hn : 0 < l.length := List.length_pos.mpr hl
        intro he
        have := congrArg List.length he
        simp only [List.length_take, List.length_nil] at this
        omega
      · simp only [List.length_take]
        omega
    · exact chunks_mem_sizes bs hbs (l.drop bs) c h
termination_by l.length
decreasing_by
  have hlen : 0 < l.length := List.length_pos.mpr hl
  have hd := List.length_drop bs l
  omega

theorem chunks_get_of_not_last (bs : Nat) (hbs : 0 < bs) (l : List String) :
    ∀ i (h : i + 1 < (chunks bs l).length),
      ((chunks bs l).get ⟨i, Nat.lt_of_succ_lt h⟩).length = bs := by
  by_cases hl : l = []
  · subst hl
    rw [chunks_nil]
    intro i h
    simp at h
  · rw [chunks_cons bs l (by omega) hl]
    intro i h
    cases i with
    | zero =>
      simp only [List.get, List.length_take]
      simp only [List.length_cons] at h
      have hne : chunks bs (l.drop bs) ≠ [] := by
        intro he
        rw [he] at h
        simp at h
      have hdrop : l.drop bs ≠ [] := by
        intro hd
        exact hne ((chunks_eq_nil_iff bs (l.drop bs) hbs).mpr hd)
      have hpos : 0 < (l.drop bs).length := List.length_pos.mpr hdrop
      have hd := List.length_drop bs l
      have hlen : bs < l.length := by omega
      exact min_eq_left (Nat.le_of_lt hlen)
    | succ j =>
      simp only [List.get]
      simp only [List.length_cons] at h
      exact chunks_get_of_not_last bs hbs (l.drop bs) j (by omega)
termination_by l.length
decreasing_by
  have hlen : 0 < l.length := List.length_pos.mpr hl
  have hd := List.length_drop bs l
  omega

/-- C3: for `n` titles and positive batch size `b`, `process_songs`
partitions the titles into exactly `ceil(n/b)` batches, each of size `b`
except possibly a shorter (non-empty) final batch, and concatenating the
batches in processing order reconstructs the input sequence exactly. -/
theorem batch_partitioning (b : Nat) (titles : List String) (hb : 0 < b) :
    (chunks b titles).length = (titles.length + b - 1) / b
    ∧ (chunks b titles).flatten = titles
    ∧ (∀ c ∈ chunks b titles, c ≠ [] ∧ c.length ≤ b)
    ∧ ∀ i (h : i + 1 < (chunks b titles).length),
        ((chunks b titles).get ⟨i, Nat.lt_of_succ_lt h⟩).length = b :=
  ⟨chunks_length b hb titles, chunks_flatten b hb titles,
   chunks_mem_sizes b hb titles, chunks_get_of_not_last b hb titles⟩

/-- Witness for C3 at `b = 2`, `titles = ["a", "b", "c"]`: two batches,
concatenation restores the input. -/
theorem batch_partitioning_witness :
    (chunks 2 ["a", "b", "c"]).length = 2
    ∧ (chunks 2 ["a", "b", "c"]).flatten = ["a", "b", "c"] := by
  have h := batch_partitioning 2 ["a", "b", "c"] (by decide)
  refine ⟨?_, h.2.1⟩
  rw [h.1]
  rfl

/-! ## Lemmas about `process_songs` -/

theorem enumFrom_cons' {α : Type _} (n : Nat) (b : α) (L : List α) :
    (b :: L).enumFrom n = (n, b) :: L.enumFrom (n + 1) := by
  simp [List.enumFrom]

theorem enumFrom_take {α : Type _} (n k : Nat) (l : List α) :
    (l.enumFrom n).take k = (l.take k).enumFrom n := by
  induction l generalizing n k with
  | nil => simp [List.enumFrom]
  | cons b t ih =>
    cases k with
    | zero => simp [List.enumFrom]
    | succ m =>
      rw [enumFrom_cons', List.take_succ_cons, List.take_succ_cons, enumFrom_cons', ih]

theorem enumFrom_drop {α : Type _} (n k : Nat) (l : List α) :
    (l.enumFrom n).drop k = (l.drop k).enumFrom (n + k) := by
  induction l generalizing n k with
  | nil => simp [List.enumFrom]
  | cons b t ih =>
    cases k with
    | zero => simp
    | succ m =>
      rw [enumFrom_cons', List.drop_succ_cons, List.drop_succ_cons, ih]
      congr 1
      omega

theorem batchResult_length (o : BatchOutcome) (batch : List String)
    (h : ∀ rs, o = BatchOutcome.ok rs → rs.length = batch.length) :
    (batchResult o batch).length = batch.length := by
  cases o with
  | ok rs => exact h rs rfl
  | parseFail => simp [batchResult]
  | requestError msg => simp [batchResult]

theorem flatten_batches_length (oracle : Nat → BatchOutcome)
    (L : List (List String)) (n : Nat)
    (h : ∀ p ∈ L.enumFrom n, ∀ rs,
      oracle p.1 = BatchOutcome.ok rs → rs.length = p.2.length) :
    (((L.enumFrom n).map (fun p => batchResult (oracle p.1) p.2)).flatten).length
      = L.flatten.length := by
  induction L generalizing n with
  | nil => rfl
  | cons b L ih =>
    rw [enumFrom_cons']
    simp only [List.map_cons, List.flatten_cons, List.length_append]
    rw [batchResult_length (oracle n) b
      (fun rs hrs => h (n, b) (by rw [enumFrom_cons']; exact List.mem_cons_self _ _) rs hrs)]
    rw [ih (n + 1)
      (fun p hp rs hrs => h p (by rw [enumFrom_cons']; exact List.mem_cons_of_mem _ hp) rs hrs)]

theorem get_original_title_placeholder (t msg : String) :
    Rec.get (placeholderRecord t msg) "original_title" = some (JValue.str t) := rfl

theorem get_original_title_parse_fail (t : String) :
    Rec.get (parseErrorRecord t) "original_title" = some (JValue.str t) := rfl

theorem flatten_batches_all_fail (oracle : Nat → BatchOutcome)
    (L : List (List String)) (n : Nat)
    (h : ∀ p ∈ L.enumFrom n, ∀ rs, oracle p.1 ≠ BatchOutcome.ok rs) :
    ((L.enumFrom n).map (fun p => batchResult (oracle p.1) p.2)).flatten.map
        (fun r => Rec.get r "original_title")
      = L.flatten.map (fun t => some (JValue.str t)) := by
  induction L generalizing n with
  | nil => rfl
  | cons b L ih =>
    rw [enumFrom_cons']
    simp only [List.map_cons, List.flatten_cons, List.map_append]
    rw [ih (n + 1)
      (fun p hp rs => h p (by rw [enumFrom_cons']; exact List.mem_cons_of_mem _ hp) rs)]
    congr 1
    have hb : ∀ rs, oracle n ≠ BatchOutcome.ok rs :=
      fun rs => h (n, b) (by rw [enumFrom_cons']; exact List.mem_cons_self _ _) rs
    cases ho : oracle n with
    | ok rs => exact absurd ho (hb rs)
    | parseFail =>
      simp only [batchResult, List.map_map]
      exact List.map_congr_left (fun t _ => get_original_title_parse_fail t)
    | requestError msg =>
      simp only [batchResult, List.map_map]
      exact List.map_congr_left (fun t _ => get_original_title_placeholder t msg)

/-- C1 (amended): `process_songs` returns exactly one record per input
title, order preserved, provided every successfully parsed batch
response contains exactly one record per title of its batch (the failure
branches always do); in particular when every batch call fails, the
output is exactly one placeholder per input title carrying the titles in
input order. -/
theorem record_per_title (oracle : Nat → BatchOutcome) (titles : List String)
    (bs : Nat) (hbs : 0 < bs) :
    ((∀ p ∈ (chunks bs titles).enum, ∀ rs,
        oracle p.1 = BatchOutcome.ok rs → rs.length = p.2.length) →
      (process_songs oracle titles bs).length = titles.length)
    ∧ ((∀ p ∈ (chunks bs titles).enum, ∀ rs, oracle p.1 ≠ BatchOutcome.ok rs) →
      (process_songs oracle titles bs).map (fun r => Rec.get r "original_title")
        = titles.map (fun t => some (JValue.str t))) := by
  constructor
  · intro h
    have key := flatten_batches_length oracle (chunks bs titles) 0 h
    rw [chunks_flatten bs hbs titles] at key
    exact key
  · intro h
    have key := flatten_batches_all_fail oracle (chunks bs titles) 0 h
    rw [chunks_flatten bs hbs titles] at key
    exact key

/-- Witness for C1 (amended) with three titles, batch size 2 and both
batch requests failing: three placeholder records, titles in order. -/
theorem record_per_title_witness :
    (process_songs (fun _ => BatchOutcome.requestError "boom") ["a", "b", "c"] 2).length = 3
    ∧ (process_songs (fun _ => BatchOutcome.requestError "boom") ["a", "b", "c"] 2).map
        (fun r => Rec.get r "original_title")
      = [some (JValue.str "a"), some (JValue.str "b"), some (JValue.str "c")] := by
  have h := record_per_title (fun _ => BatchOutcome.requestError "boom") ["a", "b", "c"] 2
    (by decide)
  constructor
  · exact h.1 (fun p _ rs hrs => by cases hrs)
  · exact h.2 (fun p _ rs hrs => by cases hrs)

/-- C1 counterexample: a backend response that parses as a valid JSON
array with the wrong number of records breaks the one-record-per-title
guarantee — here a single title whose batch response parses to the empty
array yields zero output records. -/
theorem record_per_title_counterexample :
    (process_songs (fun _ => BatchOutcome.ok []) ["a"] 20).length
      ≠ (["a"] : List String).length := by
  simp [process_songs, batchResults, chunks, batchResult]

theorem flatten_batches_split (oracle : Nat → BatchOutcome) (msg : String)
    (L : List (List String)) (n k : Nat) (hk : k < L.length)
    (hfail : oracle (n + k) = BatchOutcome.requestError msg) :
    ((L.enumFrom n).map (fun p => batchResult (oracle p.1) p.2)).flatten
      = (((L.enumFrom n).map (fun p => batchResult (oracle p.1) p.2)).take k).flatten
        ++ (L.get ⟨k, hk⟩).map (fun t => placeholderRecord t msg)
        ++ (((L.enumFrom n).map (fun p => batchResult (oracle p.1) p.2)).drop (k + 1)).flatten := by
  induction L generalizing n k with
  | nil => simp at hk
  | cons b t ih =>
    cases k with
    | zero =>
      rw [enumFrom_cons']
      simp only [List.map_cons, List.flatten_cons, List.take_zero, List.flatten_nil,
        List.drop_succ_cons, List.drop_zero, List.nil_append, List.get]
      rw [Nat.add_zero] at hfail
      rw [hfail]
      rfl
    | succ m =>
      rw [enumFrom_cons']
      simp only [List.map_cons, List.flatten_cons, List.take_succ_cons,
        List.drop_succ_cons, List.get]
      rw [ih (n + 1) m (by simpa using hk) (by rw [← hfail]; congr 1; omega)]
      simp [List.append_assoc]

theorem batchResults_take (o : Nat → BatchOutcome) (bs k : Nat) (titles : List String) :
    (batchResults o bs titles).take k
      = (((chunks bs titles).take k).enumFrom 0).map (fun p => batchResult (o p.1) p.2) := by
  unfold batchResults
  rw [← List.map_take]
  congr 1
  exact enumFrom_take 0 k _

theorem batchResults_drop (o : Nat → BatchOutcome) (bs k : Nat) (titles : List String) :
    (batchResults o bs titles).drop (k + 1)
      = (((chunks bs titles).drop (k + 1)).enumFrom (k + 1)).map
          (fun p => batchResult (o p.1) p.2) := by
  unfold batchResults
  rw [← List.map_drop]
  congr 1
  have h := enumFrom_drop 0 (k + 1) (chunks bs titles)
  simpa using h

theorem batches_map_agree (oracle oracle' : Nat → BatchOutcome)
    (L : List (List String)) (n : Nat)
    (h : ∀ p ∈ L.enumFrom n, oracle p.1 = oracle' p.1) :
    (L.enumFrom n).map (fun p => batchResult (oracle p.1) p.2)
      = (L.enumFrom n).map (fun p => batchResult (oracle' p.1) p.2) :=
  List.map_congr_left (fun p hp => by rw [h p hp])

/-- C2 (mostly as stated): when the request of batch `k` raises an
exception with message `msg`, `process_songs` contributes for that batch
exactly one placeholder per title of the batch (same `msg` in each
`error` field, `original_title` the title, `is_real_song` null), between
the records of the earlier batches and those of the later batches; and
the records of the other batches do not depend on how batch `k` behaved. -/
theorem request_error_batch (oracle : Nat → BatchOutcome) (titles : List String)
    (bs k : Nat) (msg : String) (hk : k < (chunks bs titles).length)
    (hfail : oracle k = BatchOutcome.requestError msg) :
    process_songs oracle titles bs
      = ((batchResults oracle bs titles).take k).flatten
        ++ ((chunks bs titles).get ⟨k, hk⟩).map (fun t => placeholderRecord t msg)
        ++ ((batchResults oracle bs titles).drop (k + 1)).flatten
    ∧ (∀ oracle', (∀ j, j ≠ k → oracle' j = oracle j) →
        (batchResults oracle' bs titles).take k = (batchResults oracle bs titles).take k
        ∧ (batchResults oracle' bs titles).drop (k + 1)
            = (batchResults oracle bs titles).drop (k + 1))
    ∧ ∀ t, Rec.get (placeholderRecord t msg) "original_title" = some (JValue.str t)
        ∧ Rec.get (placeholderRecord t msg) "is_real_song" = some JValue.null
        ∧ Rec.get (placeholderRecord t msg) "error" = some (JValue.str msg) := by
  refine ⟨?_, ?_, fun t => ⟨rfl, rfl, rfl⟩⟩
  · exact flatten_batches_split oracle msg (chunks bs titles) 0 k hk
      (by rw [Nat.zero_add]; exact hfail)
  · intro oracle' hagree
    constructor
    · rw [batchResults_take, batchResults_take]
      apply List.map_congr_left
      intro p hp
      have hlt : p.1 < 0 + ((chunks bs titles).take k).length :=
        List.fst_lt_add_of_mem_enumFrom hp
      have hle : ((chunks bs titles).take k).length ≤ k := by
        rw [List.length_take]
        omega
      rw [hagree p.1 (by omega)]
    · rw [batchResults_drop, batchResults_drop]
      apply List.map_congr_left
      intro p hp
      have hge : k + 1 ≤ p.1 := List.le_fst_of_mem_enumFrom hp
      rw [hagree p.1 (by omega)]

/-- Witness for C2: a transport error on the single batch of 20 titles
(batch size 20) yields exactly 20 placeholder records, each carrying the
same error description. -/
theorem request_error_batch_witness :
    (process_songs (fun _ => BatchOutcome.requestError "transport error")
        (List.replicate 20 "t") 20).length = 20
    ∧ process_songs (fun _ => BatchOutcome.requestError "transport error")
        (List.replicate 20 "t") 20
      = List.replicate 20 (placeholderRecord "t" "transport error") := by
  have hk : 0 < (chunks 20 (List.replicate 20 "t")).length := by
    simp [chunks]
  have h := request_error_batch (fun _ => BatchOutcome.requestError "transport error")
    (List.replicate 20 "t") 20 0 "transport error" hk rfl
  have h1 := h.1
  rw [List.take_zero, List.flatten_nil, List.nil_append] at h1
  have hget : (chunks 20 (List.replicate 20 "t")).get ⟨0, hk⟩ = List.replicate 20 "t" := by
    simp [chunks]
  have hdrop : ((batchResults (fun _ => BatchOutcome.requestError "transport error")
      20 (List.replicate 20 "t")).drop 1).flatten = [] := by
    simp [batchResults, chunks]
  rw [hget, hdrop, List.append_nil] at h1
  constructor
  · rw [h1]
    simp
  · rw [h1]
    simp [List.map_replicate]

/-! ## Result formatter: the artist default -/

theorem formatEntry_artist (r : Rec) :
    Rec.get (formatEntry r) "artist"
      = some ((Rec.get r "artist").getD (JValue.str "Unknown")) := rfl

/-- A classification record whose `artist` key is present with value
`null` — the shape the prompt itself requests (`"artist": "Artist Name"
or null`). -/
def nullArtistRecord : Rec :=
  [("original_title", JValue.str "t"),
   ("is_real_song", JValue.bool true),
   ("artist", JValue.null)]

/-- C8 (amended): for a real-song record, the formatter defaults the
`artist` field to the literal `"Unknown"` only when the `artist` key is
absent; a present `artist` with value `null` is emitted as `null`. -/
theorem artist_unknown_default (r : Rec)
    (h : truthy (Rec.get r "is_real_song") = true) :
    format_song_list [r] false = [formatEntry r]
    ∧ (Rec.get r "artist" = none →
        Rec.get (formatEntry r) "artist" = some (JValue.str "Unknown"))
    ∧ (Rec.get r "artist" = some JValue.null →
        Rec.get (formatEntry r) "artist" = some JValue.null) := by
  refine ⟨by simp [format_song_list, h], ?_, ?_⟩
  · intro ha
    rw [formatEntry_artist, ha]
    rfl
  · intro ha
    rw [formatEntry_artist, ha]
    rfl

/-- Witness for C8 (amended): a real-song record with no `artist` key is
formatted with artist `"Unknown"`. -/
theorem artist_unknown_default_witness :
    Rec.get (formatEntry [("original_title", JValue.str "t"),
        ("is_real_song", JValue.bool true)]) "artist"
      = some (JValue.str "Unknown")
    ∧ format_song_list [[("original_title", JValue.str "t"),
        ("is_real_song", JValue.bool true)]] false
      = [formatEntry [("original_title", JValue.str "t"),
          ("is_real_song", JValue.bool true)]] :=
  ⟨(artist_unknown_default [("original_title", JValue.str "t"),
      ("is_real_song", JValue.bool true)] (by decide)).2.1 (by decide),
   (artist_unknown_default [("original_title", JValue.str "t"),
      ("is_real_song", JValue.bool true)] (by decide)).1⟩

/-- C8 counterexample: a real-song record whose `artist` key is present
with value `null` is formatted with artist `null`, not the literal
`"Unknown"` the claim requires. -/
theorem artist_unknown_default_counterexample :
    (format_song_list [nullArtistRecord] false).map (fun e => Rec.get e "artist")
      = [some JValue.null]
    ∧ ¬ ((format_song_list [nullArtistRecord] false).map (fun e => Rec.get e "artist")
        = [some (JValue.str "Unknown")]) := by
  decide

/-! ## Carousel navigator: disabled "next" control -/

/-- C7: when the "next" control becomes visible within the 50-poll wait
but carries the `disabled` attribute, the advance operation reports
`(advanced = false, title = absent)` and issues zero clicks. -/
theorem advance_disabled (visible : Nat → Bool) (titleAt : Nat → Option String)
    (current : Option String)
    (hvis : ((List.range 50).any (fun i => visible i)) = true) :
    click_next_and_wait_for_change visible true titleAt current = ((false, none), 0) := by
  simp [click_next_and_wait_for_change, hvis]

/-- Witness for C7: an always-visible disabled control. -/
theorem advance_disabled_witness :
    click_next_and_wait_for_change (fun _ => true) true (fun _ => none) none
      = ((false, none), 0) :=
  advance_disabled (fun _ => true) (fun _ => none) none (by decide)

/-! ## Page loader: backoff between attempts -/

/-- A driver for which the grid-selector wait fails on attempts 1 and 2
and succeeds on attempt 3. -/
def gridOnThird : Nat → AttemptOutcome := fun n =>
  if n < 3 then AttemptOutcome.noGrid false else AttemptOutcome.gridFound

/-- A driver whose attempt 1 fails the grid wait, whose attempt 2 raises
a transport-level error, and whose attempt 3 succeeds. -/
def errorOnSecond : Nat → AttemptOutcome := fun n =>
  if n = 1 then AttemptOutcome.noGrid false
  else if n = 2 then AttemptOutcome.gotoError
  else AttemptOutcome.gridFound

/-- C6 (amended): after a failed non-final attempt `a` the loader sleeps
`a * 5` seconds when the failure was the grid selector not being
observed, but a constant `5` seconds when the attempt raised a
transport-level error; and for a driver failing the grid wait on
attempts 1 and 2 and succeeding on attempt 3 with `max_retries = 3`, the
loader returns success having performed exactly the two backoff waits
`[1 * 5, 2 * 5]`. -/
theorem backoff_waits (driver : Nat → AttemptOutcome) (maxr a : Nat) :
    ((a < maxr) → ∀ b, driver a = AttemptOutcome.noGrid b →
      tryLoadGo driver maxr a
        = ((tryLoadGo driver maxr (a + 1)).1, a * 5 :: (tryLoadGo driver maxr (a + 1)).2))
    ∧ ((a < maxr) → driver a = AttemptOutcome.gotoError →
      tryLoadGo driver maxr a
        = ((tryLoadGo driver maxr (a + 1)).1, 5 :: (tryLoadGo driver maxr (a + 1)).2))
    ∧ try_load_page gridOnThird 3 = (true, [1 * 5, 2 * 5]) := by
  refine ⟨?_, ?_, ?_⟩
  · intro hlt b hb
    rw [tryLoadGo]
    rw [if_neg (by omega)]
    rw [hb]
    simp [hlt]
  · intro hlt hb
    rw [tryLoadGo]
    rw [if_neg (by omega)]
    rw [hb]
    simp [hlt]
  · simp [try_load_page, tryLoadGo, gridOnThird]

/-- Witness for C6 (amended): the linear wait after the grid-not-found
failure of attempt 1, and the constant wait after the transport error of
attempt 2. -/
theorem backoff_waits_witness :
    tryLoadGo gridOnThird 3 1
      = ((tryLoadGo gridOnThird 3 2).1, 1 * 5 :: (tryLoadGo gridOnThird 3 2).2)
    ∧ tryLoadGo errorOnSecond 3 2
      = ((tryLoadGo errorOnSecond 3 3).1, 5 :: (tryLoadGo errorOnSecond 3 3).2) :=
  ⟨(backoff_waits gridOnThird 3 1).1 (by decide) false rfl,
   (backoff_waits errorOnSecond 3 2).2.1 (by decide) rfl⟩

/-- C6 counterexample: with the claim's reading, the wait after a failed
attempt 2 would always be `2 * 5 = 10` seconds regardless of failure
mode; but when attempt 2 fails with a transport-level error the loader
waits `5` seconds, so the claimed wait list `[1 * 5, 2 * 5]` is not what
the loader performs. -/
theorem backoff_waits_counterexample :
    (try_load_page errorOnSecond 3).2 = [5, 5]
    ∧ (try_load_page errorOnSecond 3).2 ≠ [1 * 5, 2 * 5] := by
  constructor
  · simp [try_load_page, tryLoadGo, errorOnSecond]
  · simp [try_load_page, tryLoadGo, errorOnSecond]

/-! ## Scrape loop: accumulation of the Raw Title Set -/

theorem foldl_addTitle (extracted : List (Option String)) :
    ∀ songs seen, (extracted.foldl addTitle (songs, seen)).1
      = songs ++ specDedupGo seen (cleanedTitles extracted) := by
  induction extracted with
  | nil =>
    intro songs seen
    simp [cleanedTitles, specDedupGo]
  | cons t rest ih =>
    intro songs seen
    simp only [List.foldl_cons]
    cases h : cleanTitle t with
    | none =>
      rw [show addTitle (songs, seen) t = (songs, seen) by simp [addTitle, h]]
      rw [ih songs seen]
      rw [show cleanedTitles (t :: rest) = cleanedTitles rest by
        simp [cleanedTitles, List.filterMap_cons, h]]
    | some s =>
      rw [show cleanedTitles (t :: rest) = s :: cleanedTitles rest by
        simp [cleanedTitles, List.filterMap_cons, h]]
      by_cases hmem : s ∈ seen
      · rw [show addTitle (songs, seen) t = (songs, seen) by simp [addTitle, h, hmem]]
        rw [ih songs seen]
        rw [show specDedupGo seen (s :: cleanedTitles rest)
            = specDedupGo seen (cleanedTitles rest) by simp [specDedupGo, hmem]]
      · rw [show addTitle (songs, seen) t = (songs ++ [s], s :: seen) by
          simp [addTitle, h, hmem]]
        rw [ih (songs ++ [s]) (s :: seen)]
        rw [show specDedupGo seen (s :: cleanedTitles rest)
            = s :: specDedupGo (s :: seen) (cleanedTitles rest) by simp [specDedupGo, hmem]]
        simp

theorem mem_specDedupGo (l : List String) :
    ∀ seen x, x ∈ specDedupGo seen l → x ∉ seen ∧ x ∈ l := by
  induction l with
  | nil =>
    intro seen x hx
    simp [specDedupGo] at hx
  | cons y l ih =>
    intro seen x hx
    by_cases hy : y ∈ seen
    · rw [show specDedupGo seen (y :: l) = specDedupGo seen l by simp [specDedupGo, hy]] at hx
      obtain ⟨h1, h2⟩ := ih seen x hx
      exact ⟨h1, List.mem_cons_of_mem _ h2⟩
    · rw [show specDedupGo seen (y :: l) = y :: specDedupGo (y :: seen) l by
        simp [specDedupGo, hy]] at hx
      rcases List.mem_cons.mp hx with h | h
      · subst h
        exact ⟨hy, List.mem_cons_self _ _⟩
      · obtain ⟨h1, h2⟩ := ih (y :: seen) x h
        exact ⟨fun hs => h1 (List.mem_cons_of_mem _ hs), List.mem_cons_of_mem _ h2⟩

theorem specDedupGo_nodup (l : List String) : ∀ seen, (specDedupGo seen l).Nodup := by
  induction l with
  | nil =>
    intro seen
    simp [specDedupGo]
  | cons y l ih =>
    intro seen
    by_cases hy : y ∈ seen
    · rw [show specDedupGo seen (y :: l) = specDedupGo seen l by simp [specDedupGo, hy]]
      exact ih seen
    · rw [show specDedupGo seen (y :: l) = y :: specDedupGo (y :: seen) l by
        simp [specDedupGo, hy]]
      refine List.nodup_cons.mpr ⟨?_, ih (y :: seen)⟩
      intro hmem
      exact (mem_specDedupGo l (y :: seen) y hmem).1 (List.mem_cons_self _ _)

theorem specDedupGo_sublist (l : List String) :
    ∀ seen, List.Sublist (specDedupGo seen l) l := by
  induction l with
  | nil =>
    intro seen
    simp [specDedupGo]
  | cons y l ih =>
    intro seen
    by_cases hy : y ∈ seen
    · rw [show specDedupGo seen (y :: l) = specDedupGo seen l by simp [specDedupGo, hy]]
      exact (ih seen).cons y
    · rw [show specDedupGo seen (y :: l) = y :: specDedupGo (y :: seen) l by
        simp [specDedupGo, hy]]
      exact (ih (y :: seen)).cons₂ y

theorem ne_empty_of_mem_cleanedTitles (extracted : List (Option String)) (x : String)
    (hx : x ∈ cleanedTitles extracted) : x ≠ "" := by
  obtain ⟨t, _, ht⟩ := List.mem_filterMap.mp hx
  cases t with
  | none => simp [cleanTitle] at ht
  | some s =>
    simp only [cleanTitle] at ht
    by_cases hs : pyStrip s = ""
    · rw [if_pos hs] at ht
      cases ht
    · rw [if_neg hs] at ht
      cases ht
      exact hs

/-- C5: within one `scrape_songs` call starting from a fresh instance,
the accumulated `self.songs` list equals the first-seen-order
deduplication of the trimmed non-empty extracted titles: it has no
duplicates, is a subsequence of the cleaned observation sequence (hence
preserves first-seen order), and every entry is non-empty after
trimming. -/
theorem raw_title_set_invariant (extracted : List (Option String)) :
    scrape_songs_titles extracted [] = specFirstSeenDedup (cleanedTitles extracted)
    ∧ (scrape_songs_titles extracted []).Nodup
    ∧ List.Sublist (scrape_songs_titles extracted []) (cleanedTitles extracted)
    ∧ ∀ t ∈ scrape_songs_titles extracted [], t ≠ "" := by
  have key : scrape_songs_titles extracted []
      = specDedupGo [] (cleanedTitles extracted) := by
    rw [scrape_songs_titles, foldl_addTitle extracted [] []]
    rfl
  refine ⟨key, ?_, ?_, ?_⟩
  · rw [key]
    exact specDedupGo_nodup (cleanedTitles extracted) []
  · rw [key]
    exact specDedupGo_sublist (cleanedTitles extracted) []
  · intro t ht
    rw [key] at ht
    exact ne_empty_of_mem_cleanedTitles extracted t
      (mem_specDedupGo (cleanedTitles extracted) [] t ht).2

/-- Witness for C5 on the spec's scenario: three observations with a
repeat are deduplicated in first-seen order. -/
theorem raw_title_set_invariant_witness :
    scrape_songs_titles [some "original sound - alice",
        some "Blinding Lights - The Weeknd", some "original sound - alice"] []
      = ["original sound - alice", "Blinding Lights - The Weeknd"]
    ∧ (scrape_songs_titles [some "original sound - alice",
        some "Blinding Lights - The Weeknd", some "original sound - alice"] []).Nodup := by
  refine ⟨by decide, (raw_title_set_invariant [some "original sound - alice",
    some "Blinding Lights - The Weeknd", some "original sound - alice"]).2.1⟩

/-- C9: the deduplication is per-call only — a second `scrape_songs`
call on the same instance folds over a fresh empty seen-set but keeps
appending to the `self.songs` list left by the first call, so its result
is the first call's list followed by the second call's fresh result, and
a title observed in both calls occurs at least twice. -/
theorem dedup_per_call_only (ex1 ex2 : List (Option String)) :
    scrape_songs_titles ex2 (scrape_songs_titles ex1 [])
      = scrape_songs_titles ex1 [] ++ scrape_songs_titles ex2 []
    ∧ ∀ t, t ∈ scrape_songs_titles ex1 [] → t ∈ scrape_songs_titles ex2 [] →
        2 ≤ (scrape_songs_titles ex2 (scrape_songs_titles ex1 [])).count t := by
  have h1 : ∀ s0 : List String, scrape_songs_titles ex2 s0 = s0 ++ scrape_songs_titles ex2 [] := by
    intro s0
    rw [scrape_songs_titles, scrape_songs_titles, foldl_addTitle ex2 s0 [],
      foldl_addTitle ex2 [] []]
    rfl
  refine ⟨h1 _, ?_⟩
  intro t ht1 ht2
  rw [h1, List.count_append]
  have c1 : 0 < (scrape_songs_titles ex1 []).count t := List.count_pos_iff.mpr ht1
  have c2 : 0 < (scrape_songs_titles ex2 []).count t := List.count_pos_iff.mpr ht2
  omega

/-- Witness for C9: the title "A" observed by both calls appears twice
in the instance's accumulated list. -/
theorem dedup_per_call_only_witness :
    scrape_songs_titles [some "A"] (scrape_songs_titles [some "A"] []) = ["A", "A"]
    ∧ 2 ≤ (scrape_songs_titles [some "A"] (scrape_songs_titles [some "A"] [])).count "A" :=
  ⟨by decide,
   (dedup_per_call_only [some "A"] [some "A"]).2 "A" (by decide) (by decide)⟩

/-! ## Response cleaning: fenced code blocks -/

theorem splitNlAux_nil (acc : List Char) : splitNlAux [] acc = [acc.reverse] := rfl

theorem splitNlAux_cons (c : Char) (cs acc : List Char) :
    splitNlAux (c :: cs) acc
      = if c = Char.ofNat 10 then acc.reverse :: splitNlAux cs []
        else splitNlAux cs (c :: acc) := rfl

theorem joinNlC_cons (x : List Char) (ls : List (List Char)) (h : ls ≠ []) :
    joinNlC (x :: ls) = x ++ Char.ofNat 10 :: joinNlC ls := by
  cases ls with
  | nil => exact absurd rfl h
  | cons y ys => rfl

theorem splitNlAux_ne_nil (cs acc : List Char) : splitNlAux cs acc ≠ [] := by
  induction cs generalizing acc with
  | nil =>
    rw [splitNlAux_nil]
    exact List.cons_ne_nil _ _
  | cons c cs ih =>
    rw [splitNlAux_cons]
    by_cases h : c = Char.ofNat 10
    · rw [if_pos h]
      exact List.cons_ne_nil _ _
    · rw [if_neg h]
      exact ih (c :: acc)

theorem splitNlAux_append_nl (xs ys : List Char) : ∀ acc,
    splitNlAux (xs ++ Char.ofNat 10 :: ys) acc
      = splitNlAux xs acc ++ splitNlAux ys [] := by
  induction xs with
  | nil =>
    intro acc
    rw [List.nil_append, splitNlAux_cons, if_pos rfl, splitNlAux_nil]
    rfl
  | cons x xs ih =>
    intro acc
    rw [List.cons_append, splitNlAux_cons, splitNlAux_cons]
    by_cases h : x = Char.ofNat 10
    · rw [if_pos h, if_pos h, ih, List.cons_append]
    · rw [if_neg h, if_neg h, ih]

theorem splitNlAux_no_nl (xs : List Char) : ∀ acc, Char.ofNat 10 ∉ xs →
    splitNlAux xs acc = [acc.reverse ++ xs] := by
  induction xs with
  | nil =>
    intro acc _
    rw [splitNlAux_nil, List.append_nil]
  | cons x xs ih =>
    intro acc h
    have hx : ¬ (x = Char.ofNat 10) := by
      intro he
      rw [he] at h
      exact h (List.mem_cons_self _ _)
    rw [splitNlAux_cons, if_neg hx]
    rw [ih (x :: acc) (fun hm => h (List.mem_cons_of_mem _ hm))]
    simp

theorem joinNlC_splitNlAux (cs : List Char) : ∀ acc,
    joinNlC (splitNlAux cs acc) = acc.reverse ++ cs := by
  induction cs with
  | nil =>
    intro acc
    rw [splitNlAux_nil, List.append_nil]
    rfl
  | cons c cs ih =>
    intro acc
    rw [splitNlAux_cons]
    by_cases h : c = Char.ofNat 10
    · rw [if_pos h]
      rw [joinNlC_cons _ _ (splitNlAux_ne_nil cs [])]
      have hih := ih []
      rw [List.reverse_nil, List.nil_append] at hih
      rw [hih, h]
    · rw [if_neg h, ih (c :: acc)]
      simp

theorem no_nl_of_mem_splitNlAux (cs : List Char) :
    ∀ acc l, Char.ofNat 10 ∉ acc → l ∈ splitNlAux cs acc → Char.ofNat 10 ∉ l := by
  induction cs with
  | nil =>
    intro acc l hacc hl
    rw [splitNlAux_nil] at hl
    rw [List.mem_singleton.mp hl]
    simp only [List.mem_reverse]
    exact hacc
  | cons c cs ih =>
    intro acc l hacc hl
    rw [splitNlAux_cons] at hl
    by_cases h : c = Char.ofNat 10
    · rw [if_pos h] at hl
      rcases List.mem_cons.mp hl with h1 | h1
      · rw [h1]
        simp only [List.mem_reverse]
        exact hacc
      · exact ih [] l (List.not_mem_nil _) h1
    · rw [if_neg h] at hl
      refine ih (c :: acc) l ?_ hl
      intro hm
      rcases List.mem_cons.mp hm with h1 | h1
      · exact h h1.symm
      · exact hacc h1

theorem splitNlAux_joinNlC (L : List (List Char)) (hne : L ≠ [])
    (hnl : ∀ l ∈ L, Char.ofNat 10 ∉ l) :
    splitNlAux (joinNlC L) [] = L := by
  induction L with
  | nil => exact absurd rfl hne
  | cons x ls ih =>
    cases ls with
    | nil =>
      rw [show joinNlC [x] = x from rfl]
      rw [splitNlAux_no_nl x [] (hnl x (List.mem_cons_self _ _))]
      rfl
    | cons y ys =>
      rw [joinNlC_cons x (y :: ys) (List.cons_ne_nil _ _)]
      rw [splitNlAux_append_nl x (joinNlC (y :: ys)) []]
      rw [splitNlAux_no_nl x [] (hnl x (List.mem_cons_self _ _))]
      rw [ih (List.cons_ne_nil _ _) (fun l hl => hnl l (List.mem_cons_of_mem _ hl))]
      rfl

/-- The closing fence line: three backticks. -/
def fence3 : String := String.mk [tick, tick, tick]

theorem joinNl_splitNl (s : String) : joinNl (splitNl s) = s := by
  unfold joinNl splitNl
  rw [List.map_map]
  rw [show String.data ∘ String.mk = id from rfl, List.map_id]
  rw [joinNlC_splitNlAux s.data []]
  rfl

theorem splitNl_joinNl (ls : List String) (hne : ls ≠ [])
    (hnl : ∀ l ∈ ls, Char.ofNat 10 ∉ l.data) :
    splitNl (joinNl ls) = ls := by
  unfold splitNl joinNl
  rw [show (String.mk (joinNlC (ls.map String.data))).data
      = joinNlC (ls.map String.data) from rfl]
  rw [splitNlAux_joinNlC (ls.map String.data)
    (fun he => hne (List.map_eq_nil_iff.mp he))
    (by
      intro l hl
      obtain ⟨x, hx, hdx⟩ := List.mem_map.mp hl
      rw [← hdx]
      exact hnl x hx)]
  rw [List.map_map]
  rw [show String.mk ∘ String.data = id from rfl, List.map_id]

theorem data_wrapped (hdr p : String) :
    (hdr ++ "\n" ++ p ++ "\n" ++ fence3).data
      = hdr.data ++ Char.ofNat 10 :: (p.data ++ Char.ofNat 10 :: fence3.data) := by
  rw [String.data_append, String.data_append, String.data_append, String.data_append]
  rw [show ("\n" : String).data = [Char.ofNat 10] from by decide]
  simp [List.append_assoc]

theorem startsWithTicks_data (s : String) (h : startsWithTicks s = true) :
    ∃ rest, s.data = tick :: tick :: tick :: rest := by
  unfold startsWithTicks at h
  cases hsd : s.data with
  | nil =>
    rw [hsd] at h
    simp at h
  | cons a t1 =>
    cases ht1 : t1 with
    | nil =>
      rw [hsd, ht1] at h
      simp at h
    | cons b t2 =>
      cases ht2 : t2 with
      | nil =>
        rw [hsd, ht1, ht2] at h
        simp at h
      | cons c t3 =>
        rw [hsd, ht1, ht2] at h
        simp only [Bool.and_eq_true, decide_eq_true_eq] at h
        obtain ⟨⟨ha, hb⟩, hc⟩ := h
        exact ⟨t3, by rw [ha, hb, hc]⟩

theorem pyStrip_wrapped (hdr p : String) (rest : List Char)
    (hd : hdr.data = tick :: rest) :
    pyStrip (hdr ++ "\n" ++ p ++ "\n" ++ fence3) = hdr ++ "\n" ++ p ++ "\n" ++ fence3 := by
  unfold pyStrip
  rw [data_wrapped, hd]
  have hfront : ((tick :: rest) ++ Char.ofNat 10 :: (p.data ++ Char.ofNat 10 :: fence3.data)).dropWhile isWs
      = (tick :: rest) ++ Char.ofNat 10 :: (p.data ++ Char.ofNat 10 :: fence3.data) := by
    rw [List.cons_append]
    rw [List.dropWhile_cons]
    rw [if_neg (by decide)]
  rw [hfront]
  have hback : ((tick :: rest) ++ Char.ofNat 10 :: (p.data ++ Char.ofNat 10 :: fence3.data)).reverse.dropWhile isWs
      = ((tick :: rest) ++ Char.ofNat 10 :: (p.data ++ Char.ofNat 10 :: fence3.data)).reverse := by
    rw [show (Char.ofNat 10 :: (p.data ++ Char.ofNat 10 :: fence3.data))
        = (Char.ofNat 10 :: p.data ++ [Char.ofNat 10]) ++ fence3.data by simp]
    rw [List.reverse_append, List.reverse_append]
    rw [show (fence3.data).reverse = tick :: [tick, tick] from by decide]
    rw [List.cons_append, List.cons_append]
    rw [List.dropWhile_cons]
    rw [if_neg (by decide)]
  rw [hback, List.reverse_reverse]
  rw [← hd, ← data_wrapped]

theorem startsWithTicks_wrapped (hdr p : String) (rest : List Char)
    (hd : hdr.data = tick :: tick :: tick :: rest) :
    startsWithTicks (hdr ++ "\n" ++ p ++ "\n" ++ fence3) = true := by
  unfold startsWithTicks
  rw [data_wrapped, hd]
  simp [tick]

theorem splitNl_wrapped (hdr p : String) (hhnl : Char.ofNat 10 ∉ hdr.data) :
    splitNl (hdr ++ "\n" ++ p ++ "\n" ++ fence3) = hdr :: (splitNl p ++ [fence3]) := by
  unfold splitNl
  rw [data_wrapped]
  rw [splitNlAux_append_nl hdr.data (p.data ++ Char.ofNat 10 :: fence3.data) []]
  rw [splitNlAux_append_nl p.data fence3.data []]
  rw [splitNlAux_no_nl hdr.data [] hhnl]
  rw [splitNlAux_no_nl fence3.data [] (by decide)]
  simp only [List.reverse_nil, List.nil_append, List.map_append, List.map_cons,
    List.map_nil, List.singleton_append]

theorem stripFences_wrapped (hdr p : String)
    (hhdr : startsWithTicks hdr = true)
    (hhnl : Char.ofNat 10 ∉ hdr.data) :
    stripFences (hdr ++ "\n" ++ p ++ "\n" ++ fence3) = p := by
  obtain ⟨rest, hd⟩ := startsWithTicks_data hdr hhdr
  unfold stripFences
  rw [startsWithTicks_wrapped hdr p rest hd]
  rw [if_pos rfl]
  rw [splitNl_wrapped hdr p hhnl]
  rw [List.drop_succ_cons, List.drop_zero, List.dropLast_concat]
  exact joinNl_splitNl p

/-- C4: the response-cleaning step of `_process_batch` yields the same
parse input for a payload presented bare and for the same payload
wrapped in a fenced code block (a newline-free first line starting with
three backticks, and a final closing three-backtick line); since
`json.loads` is a function of that cleaned text, the two parse results
are identical.  The payload is assumed trim-stable and not itself
starting with three backticks — both hold for any JSON array payload. -/
theorem fence_strip_equiv (hdr p : String)
    (hhdr : startsWithTicks hdr = true)
    (hhnl : Char.ofNat 10 ∉ hdr.data)
    (hp1 : startsWithTicks p = false)
    (hp2 : pyStrip p = p) :
    cleanResponse (hdr ++ "\n" ++ p ++ "\n" ++ fence3) = p
    ∧ cleanResponse p = p := by
  obtain ⟨rest, hd⟩ := startsWithTicks_data hdr hhdr
  constructor
  · unfold cleanResponse
    rw [pyStrip_wrapped hdr p (tick :: tick :: rest) hd]
    exact stripFences_wrapped hdr p hhdr hhnl
  · unfold cleanResponse
    rw [hp2]
    unfold stripFences
    rw [hp1]
    rfl

/-- A fence-opening header line reading three backticks then "json". -/
def hdrJson : String := String.mk [tick, tick, tick, 'j', 's', 'o', 'n']

/-- Witness for C4: the payload `[1, 2]` cleans to itself both bare and
wrapped in a fenced block. -/
theorem fence_strip_equiv_witness :
    cleanResponse (hdrJson ++ "\n" ++ "[1, 2]" ++ "\n" ++ fence3) = "[1, 2]"
    ∧ cleanResponse "[1, 2]" = "[1, 2]" :=
  fence_strip_equiv hdrJson "[1, 2]" (by decide) (by decide) (by decide) (by decide)

/-- C10: whenever the trimmed response text starts with three backticks,
`_process_batch` removes the first line and the last line before
parsing, whether or not a closing fence exists: the kept text is
exactly `lines[1:-1]` rejoined, so when the response has no closing
fence the final line of the payload is discarded. -/
theorem fence_strip_no_closing (s : String)
    (h : startsWithTicks s = true)
    (h3 : 3 ≤ (splitNl s).length) :
    stripFences s = joinNl (((splitNl s).drop 1).dropLast)
    ∧ splitNl (stripFences s) = ((splitNl s).drop 1).dropLast := by
  have h1 : stripFences s = joinNl (((splitNl s).drop 1).dropLast) := by
    unfold stripFences
    rw [h]
    rfl
  refine ⟨h1, ?_⟩
  rw [h1]
  apply splitNl_joinNl
  · have hlen1 : ((splitNl s).drop 1).length = (splitNl s).length - 1 :=
      List.length_drop 1 (splitNl s)
    have hlen2 : (((splitNl s).drop 1).dropLast).length = ((splitNl s).drop 1).length - 1 :=
      List.length_dropLast ((splitNl s).drop 1)
    apply List.length_pos.mp
    omega
  · intro l hl
    have hmem : l ∈ splitNl s :=
      (List.drop_sublist 1 (splitNl s)).subset
        ((List.dropLast_sublist ((splitNl s).drop 1)).subset hl)
    unfold splitNl at hmem
    obtain ⟨cs, hcs, hmk⟩ := List.mem_map.mp hmem
    rw [← hmk]
    exact no_nl_of_mem_splitNlAux s.data [] cs (List.not_mem_nil _) hcs

/-- Witness for C10: a response opening with a fenced header but with no
closing fence loses the final payload line `2]` — only `[1,` reaches the
parser. -/
theorem fence_strip_no_closing_witness :
    stripFences (hdrJson ++ "\n" ++ "[1," ++ "\n" ++ "2]") = "[1,"
    ∧ splitNl (stripFences (hdrJson ++ "\n" ++ "[1," ++ "\n" ++ "2]")) = ["[1,"] := by
  have h := fence_strip_no_closing (hdrJson ++ "\n" ++ "[1," ++ "\n" ++ "2]")
    (by decide) (by decide)
  constructor
  · rw [h.1]
    decide
  · rw [h.2]
    decide
